import Mathlib

/-!
Verification of the youtube-chat-monitor repository.

This file shallowly embeds the core of the repository in Lean 4:

* `src/yt_chat_scraper.py` — `extract_messages_and_continuation` (the
  Response Parser) and the polling loop of `main` (the Ingestion Session);
* `src/yt_chat_backup.py` — `merge_chats` (the Merge Engine) and the
  start/monitor/merge control flow of `main` (the Capture Supervisor).

Conventions of the embedding:

* JSON documents are modelled by the inductive type `JValue`; Python
  numbers (int and float alike) are modelled as rationals `ℚ`, Python
  machine floats being replaced by exact rational arithmetic.
* Python operations that can raise (`.get` on a non-dict, subscripting,
  `int(...)`, iteration over a non-iterable, `round` on a non-number,
  hashing an unhashable value) are modelled in `Except String`; the
  error payload is only a human-readable tag, never inspected.
* Python dicts appear as association lists in insertion order with the
  first binding of a key authoritative (parsed JSON objects have unique
  keys); Python's stable `list.sort` is modelled by a stable insertion
  sort, which produces the same list as any stable ascending sort.
-/

/-- JSON-like value: the document type flowing through the scraper and the
merge engine. Numbers (Python int and float) are modelled as rationals. -/
inductive JValue where
  | null
  | bool (b : Bool)
  | num (q : ℚ)
  | str (s : String)
  | arr (xs : List JValue)
  | obj (kvs : List (String × JValue))

/-- Hashable Python values that can be a component of a dedup key.
Python treats `True == 1` and `False == 0`, so booleans are folded into
numbers. Lists and dicts are unhashable and never reach this type. -/
inductive PyHashable where
  | null
  | num (q : ℚ)
  | str (s : String)
deriving DecidableEq

/-- Sequencing of Python operations that may raise: the Lean counterpart
of running one statement after another inside the same (un-caught) scope. -/
def exThen {α β : Type} (x : Except String α) (f : α → Except String β) :
    Except String β :=
  match x with
  | .error e => .error e
  | .ok v => f v

/-- Python truthiness of a JSON value (`if lcc:`, `if tok:` …). -/
def truthy : JValue → Bool
  | .null => false
  | .bool b => b
  | .num q => decide (q ≠ 0)
  | .str s => s != ""
  | .arr xs => !xs.isEmpty
  | .obj kvs => !kvs.isEmpty

/-- First binding of a key in an association list (Python dict lookup;
objects produced by `json.loads` have unique keys). -/
def jlookup : List (String × JValue) → String → Option JValue
  | [], _ => none
  | (k, v) :: rest, key => if k == key then some v else jlookup rest key

/-- Python `v.get(k, d)`: dict lookup with default, `AttributeError` when
`v` is not a dict (including `None`). -/
def pyGetD (v : JValue) (k : String) (d : JValue) : Except String JValue :=
  match v with
  | .obj kvs => .ok ((jlookup kvs k).getD d)
  | _ => .error "AttributeError: get"

/-- Python `v.get(k)` (single-argument form, default `None`). -/
def pyGetN (v : JValue) (k : String) : Except String JValue :=
  pyGetD v k .null

/-- Python `for x in v`: elements of a list, keys of a dict (insertion
order), characters of a string; `TypeError` otherwise. -/
def pyIter : JValue → Except String (List JValue)
  | .arr xs => .ok xs
  | .obj kvs => .ok (kvs.map (fun kv => .str kv.1))
  | .str s => .ok (s.data.map (fun c => .str (String.mk [c])))
  | _ => .error "TypeError: not iterable"

mutual

/-- Structural equality of JSON values (Python `==` as used on parsed
JSON; int/float unification is already provided by the `ℚ` model). -/
def jeqB : JValue → JValue → Bool
  | .null, .null => true
  | .bool a, .bool b => a == b
  | .num a, .num b => a == b
  | .str a, .str b => a == b
  | .arr as, .arr bs => jeqArr as bs
  | .obj as, .obj bs => jeqObj as bs
  | _, _ => false

/-- Pointwise `jeqB` on lists. -/
def jeqArr : List JValue → List JValue → Bool
  | [], [] => true
  | a :: as, b :: bs => jeqB a b && jeqArr as bs
  | _, _ => false

/-- Pointwise `jeqB` on association lists. -/
def jeqObj : List (String × JValue) → List (String × JValue) → Bool
  | [], [] => true
  | (k1, v1) :: as, (k2, v2) :: bs => k1 == k2 && jeqB v1 v2 && jeqObj as bs
  | _, _ => false

end

/-- Python subscript `c[k]` as used by the scraper: dict lookup
(`KeyError` when absent), list/string indexing (negative indices wrap,
`IndexError` out of range), `TypeError` elsewhere. Integer-valued
rationals stand for Python ints. -/
def pySubscript (c k : JValue) : Except String JValue :=
  match c, k with
  | .obj kvs, .str s =>
      match jlookup kvs s with
      | some v => .ok v
      | none => .error "KeyError"
  | .obj _, .null => .error "KeyError"
  | .obj _, .bool _ => .error "KeyError"
  | .obj _, .num _ => .error "KeyError"
  | .obj _, _ => .error "TypeError: unhashable key"
  | .arr xs, .num q =>
      if q.den = 1 then
        let i : ℤ := if q.num < 0 then q.num + xs.length else q.num
        if h : 0 ≤ i ∧ i.toNat < xs.length then .ok (xs.get ⟨i.toNat, h.2⟩)
        else .error "IndexError"
      else .error "TypeError: list index"
  | .arr xs, .bool b =>
      let i : ℕ := if b then 1 else 0
      if h : i < xs.length then .ok (xs.get ⟨i, h⟩) else .error "IndexError"
  | .arr _, _ => .error "TypeError: list index"
  | .str s, .num q =>
      if q.den = 1 then
        let i : ℤ := if q.num < 0 then q.num + s.data.length else q.num
        if h : 0 ≤ i ∧ i.toNat < s.data.length then
          .ok (.str (String.mk [s.data.get ⟨i.toNat, h.2⟩]))
        else .error "IndexError"
      else .error "TypeError: string index"
  | .str _, _ => .error "TypeError: string index"
  | _, _ => .error "TypeError: not subscriptable"

/-- Character-list version of `String.startsWith`. -/
def startsWithChars : List Char → List Char → Bool
  | _, [] => true
  | [], _ :: _ => false
  | a :: as, b :: bs => a == b && startsWithChars as bs

/-- Substring occurrence on character lists. -/
def containsChars : List Char → List Char → Bool
  | [], needle => needle.isEmpty
  | c :: rest, needle => startsWithChars (c :: rest) needle || containsChars rest needle

/-- Python `x in c` as used on parsed JSON: key membership for dicts,
substring test for strings, element equality for lists. -/
def pyContains (c x : JValue) : Except String Bool :=
  match c with
  | .obj kvs =>
      match x with
      | .str s => .ok (kvs.any (fun kv => kv.1 == s))
      | .null => .ok false
      | .bool _ => .ok false
      | .num _ => .ok false
      | _ => .error "TypeError: unhashable"
  | .str hay =>
      match x with
      | .str needle => .ok (containsChars hay.data needle.data)
      | _ => .error "TypeError: in string"
  | .arr xs => .ok (xs.any (fun v => jeqB x v))
  | _ => .error "TypeError: not a container"

/-- ASCII lower-casing of one character (Python `str.lower` on the key
names appearing here, which are ASCII). -/
def lowChar (c : Char) : Char :=
  if 65 ≤ c.toNat ∧ c.toNat ≤ 90 then Char.ofNat (c.toNat + 32) else c

/-- ASCII `str.lower`. -/
def lowStr (s : String) : String := String.mk (s.data.map lowChar)

/-- Substring test (`needle in hay` for strings). -/
def strContains (hay needle : String) : Bool :=
  containsChars hay.data needle.data

/-- Decimal digit value of a character, if any. -/
def digitVal (c : Char) : Option ℕ :=
  if 48 ≤ c.toNat ∧ c.toNat ≤ 57 then some (c.toNat - 48) else none

/-- Accumulating decimal reading of a digit string. -/
def digitsToNat : ℕ → List Char → Option ℕ
  | acc, [] => some acc
  | acc, c :: cs =>
      match digitVal c with
      | some d => digitsToNat (acc * 10 + d) cs
      | none => none

/-- Nonempty all-digit character list as an integer. -/
def pyIntDigits : List Char → Option ℤ
  | [] => none
  | c :: cs => (digitsToNat 0 (c :: cs)).map (fun n => (n : ℤ))

/-- Python `int(s)` on a string: optional sign followed by decimal
digits; `ValueError` otherwise. -/
def pyIntStr (s : String) : Except String ℤ :=
  match s.data with
  | '-' :: rest =>
      match pyIntDigits rest with
      | some n => .ok (-n)
      | none => .error "ValueError: int"
  | '+' :: rest =>
      match pyIntDigits rest with
      | some n => .ok n
      | none => .error "ValueError: int"
  | cs =>
      match pyIntDigits cs with
      | some n => .ok n
      | none => .error "ValueError: int"

/-- Truncation toward zero (Python `int(float)`). -/
def ratTruncInt (q : ℚ) : ℤ := if q < 0 then -(⌊-q⌋) else ⌊q⌋

/-- Python `int(v)` on a JSON value. -/
def pyInt : JValue → Except String ℤ
  | .num q => .ok (ratTruncInt q)
  | .bool b => .ok (if b then 1 else 0)
  | .str s => pyIntStr s
  | _ => .error "TypeError: int"

/-- Round-half-to-even to an integer (Python `round`): the fractional
part decides (the conditions are the comparisons of `q - ⌊q⌋` with 1/2,
cleared of denominators). -/
def halfEven (q : ℚ) : ℤ :=
  if 2 * q < 2 * (⌊q⌋ : ℚ) + 1 then ⌊q⌋
  else if 2 * (⌊q⌋ : ℚ) + 1 < 2 * q then ⌊q⌋ + 1
  else if ⌊q⌋ % 2 = 0 then ⌊q⌋ else ⌊q⌋ + 1

/-- Python `round(q, 1)`: one decimal place, ties to even. -/
def pyRound1 (q : ℚ) : ℚ := (halfEven (q * 10) : ℚ) / 10

/-- Python `round(v, 1)` on a JSON value: numbers round, booleans count
as 0/1, anything else is a `TypeError`. -/
def pyRound1E : JValue → Except String ℚ
  | .num q => .ok (pyRound1 q)
  | .bool b => .ok (if b then 1 else 0)
  | _ => .error "TypeError: round"

/-- Hashable view of a JSON value: lists and dicts raise `TypeError`
when used as (part of) a set element. -/
def toHashableE : JValue → Except String PyHashable
  | .null => .ok .null
  | .bool b => .ok (.num (if b then 1 else 0))
  | .num q => .ok (.num q)
  | .str s => .ok (.str s)
  | .arr _ => .error "TypeError: unhashable list"
  | .obj _ => .error "TypeError: unhashable dict"

/-- Identity key used by the dedup stores: rounded-or-exact timestamp
paired with the hashable author value. -/
abbrev SKey := ℚ × PyHashable

/-!
Merge Engine — `merge_chats` of `src/yt_chat_backup.py` (lines 85–115).

A source file is `Option (List (Option JValue))`: `none` is a path that
does not exist (`os.path.exists` fails, the file is skipped); a line is
`none` when it is blank after stripping or does not parse as JSON
(`json.loads` raises and the bare `except` drops the line), and
`some v` when it parses to the document `v`.
-/

/-- Identity key of one merge-input record (lines 100–102):
`author = msg.get('author', {}).get('name', '')`,
`ts = msg.get('timestamp', 0)`, `key = (round(ts, 1), author)`; the
hashability requirement comes from `key not in seen`. Any raise inside
the per-line `try` makes the line get dropped. -/
def recordKeyE (msg : JValue) : Except String SKey :=
  exThen (pyGetD msg "author" (.obj [])) fun a =>
  exThen (pyGetD a "name" (.str "")) fun name =>
  exThen (pyGetD msg "timestamp" (.num 0)) fun ts =>
  exThen (pyRound1E ts) fun r =>
  exThen (toHashableE name) fun h =>
  .ok (r, h)

/-- Lines 93–107: process the lines of one file, threading the `seen`
key set and the accumulated `all_msgs`; a line whose processing raises
is skipped, a record whose key is already seen is skipped. -/
def mergeProcess (seen : List SKey) (acc : List JValue) :
    List (Option JValue) → List SKey × List JValue
  | [] => (seen, acc)
  | none :: rest => mergeProcess seen acc rest
  | some msg :: rest =>
      match recordKeyE msg with
      | .error _ => mergeProcess seen acc rest
      | .ok k =>
          if k ∈ seen then mergeProcess seen acc rest
          else mergeProcess (k :: seen) (acc ++ [msg]) rest

/-- Lines 90–107: iterate over the input files; a missing path
contributes nothing. -/
def mergeFilesGo (seen : List SKey) (acc : List JValue) :
    List (Option (List (Option JValue))) → List SKey × List JValue
  | [] => (seen, acc)
  | none :: fs => mergeFilesGo seen acc fs
  | some lines :: fs =>
      match mergeProcess seen acc lines with
      | (s, a) => mergeFilesGo s a fs

/-- Sort key of line 109: `x.get('timestamp', 0)`. Records kept by
`mergeProcess` always carry a numeric (or boolean) timestamp, the
remaining branches are unreachable there. -/
def sortTs (msg : JValue) : ℚ :=
  match pyGetD msg "timestamp" (.num 0) with
  | .ok (.num q) => q
  | .ok (.bool b) => if b then 1 else 0
  | _ => 0

/-- Stable insert for the model of Python's stable `list.sort`. -/
def insSorted (m : JValue) : List JValue → List JValue
  | [] => [m]
  | x :: xs => if sortTs m ≤ sortTs x then m :: x :: xs else x :: insSorted m xs

/-- Stable ascending sort by `sortTs` (line 109); extensionally equal to
any stable ascending sort, in particular Python's. -/
def sortMsgs : List JValue → List JValue
  | [] => []
  | m :: ms => insSorted m (sortMsgs ms)

/-- `merge_chats` (lines 85–115): dedup every parseable line by identity
key (first key occurrence wins), then sort by timestamp. The returned
list is the sequence of records written to the output file. -/
def merge_chats (files : List (Option (List (Option JValue)))) : List JValue :=
  sortMsgs (mergeFilesGo [] [] files).2

/-!
Response Parser — `extract_messages_and_continuation` of
`src/yt_chat_scraper.py` (lines 41–114).
-/

/-- Canonical event built by the parser (lines 98–110): the dict
`{'author': {'name': author}, 'timestamp': ts, 'message': text}` plus
the optional `superchat` and `offset_ms` entries. -/
structure Msg where
  author : JValue
  timestamp : ℚ
  message : String
  superchat : Option JValue
  offset_ms : Option ℤ

/-- The event as the dict the scraper builds and writes (insertion
order: author, timestamp, message, superchat, offset_ms). -/
def encodeMsg (m : Msg) : JValue :=
  .obj ([("author", .obj [("name", m.author)]),
         ("timestamp", .num m.timestamp),
         ("message", .str m.message)]
    ++ (match m.superchat with
        | some sc => [("superchat", sc)]
        | none => [])
    ++ (match m.offset_ms with
        | some o => [("offset_ms", .num (o : ℚ))]
        | none => []))

/-- One element of the run list (lines 90–96): literal text when the
run has a `text` key, else the first emoji shortcut when `shortcuts` is
truthy, else the `emojiId`. -/
def runPiece (r : JValue) : Except String JValue :=
  exThen (pyContains r (.str "text")) fun hasText =>
  if hasText then pyGetD r "text" (.str "")
  else
    exThen (pyGetD r "emoji" (.obj [])) fun e1 =>
    exThen (pyGetN e1 "shortcuts") fun sc =>
    if truthy sc then
      exThen (pyGetD r "emoji" (.obj [])) fun e2 =>
      exThen (pyGetD e2 "shortcuts" (.arr [.str ""])) fun sc2 =>
      pySubscript sc2 (.num 0)
    else
      exThen (pyGetD r "emoji" (.obj [])) fun e3 =>
      pyGetD e3 "emojiId" (.str "")

/-- `''.join(...)` over the runs: every piece must be a string. -/
def joinRuns : List JValue → Except String String
  | [] => .ok ""
  | r :: rest =>
      exThen (runPiece r) fun p =>
      match p with
      | .str s => exThen (joinRuns rest) fun t => .ok (s ++ t)
      | _ => .error "TypeError: join"

/-- Lines 80–112 for one renderer key: skip when the renderer is falsy,
otherwise build the message (author default `'Unknown'`,
`timestampUsec` default `'0'` put through `int` and divided by 10⁶,
text from the runs, `superchat` only for the paid renderer, `offset_ms`
from the wrapping action when truthy). -/
def tryRenderer (replay item : JValue) (rk : String) : Except String (List Msg) :=
  exThen (pyGetD item rk (.obj [])) fun renderer =>
  if truthy renderer then
    exThen (pyGetD renderer "authorName" (.obj [])) fun an =>
    exThen (pyGetD an "simpleText" (.str "Unknown")) fun author =>
    exThen (pyGetD renderer "timestampUsec" (.str "0")) fun tsu =>
    exThen (pyInt tsu) fun tsi =>
    exThen (pyGetD renderer "message" (.obj [])) fun mo =>
    exThen (pyGetD mo "runs" (.arr [])) fun runsJ =>
    exThen (pyIter runsJ) fun runs =>
    exThen (joinRuns runs) fun text =>
    exThen
      (if rk == "liveChatPaidMessageRenderer" then
        exThen (pyGetD renderer "purchaseAmountText" (.obj [])) fun pa =>
        exThen (pyGetD pa "simpleText" (.str "")) fun st =>
        .ok (some st)
      else .ok none) fun sc =>
    exThen (pyGetN replay "videoOffsetTimeMsec") fun offJ =>
    exThen (if truthy offJ then (pyInt offJ).map some else .ok none) fun off =>
    .ok [⟨author, (tsi : ℚ) / 1000000, text, sc, off⟩]
  else .ok []

/-- Lines 77–112: one sub-action — resolve
`sub.get('addChatItemAction', {}).get('item', {})`, then try the text
renderer and the paid renderer in that order. -/
def processSubs (replay : JValue) : List JValue → Except String (List Msg)
  | [] => .ok []
  | sub :: rest =>
      exThen (pyGetD sub "addChatItemAction" (.obj [])) fun aca =>
      exThen (pyGetD aca "item" (.obj [])) fun item =>
      exThen (tryRenderer replay item "liveChatTextMessageRenderer") fun m1 =>
      exThen (tryRenderer replay item "liveChatPaidMessageRenderer") fun m2 =>
      exThen (processSubs replay rest) fun ms =>
      .ok (m1 ++ m2 ++ ms)

/-- Lines 73–75: one action — unwrap `replayChatItemAction` (defaulting
to the action itself) and its `actions` list (defaulting to the
one-element list holding the action). -/
def processAction (action : JValue) : Except String (List Msg) :=
  exThen (pyGetD action "replayChatItemAction" action) fun replay =>
  exThen (pyGetD replay "actions" (.arr [action])) fun subsJ =>
  exThen (pyIter subsJ) fun subs =>
  processSubs replay subs

/-- Fold of `processAction` over the actions list. -/
def extractActionsGo : List JValue → Except String (List Msg)
  | [] => .ok []
  | a :: rest =>
      exThen (processAction a) fun ms =>
      exThen (extractActionsGo rest) fun rs =>
      .ok (ms ++ rs)

/-- Lines 65–70, inner loop: scan the keys of one continuation entry in
order; the first key whose value carries a truthy `continuation` yields
`(token, key)` and the scan of this entry stops (the `break`). -/
def firstTokenInEntry (c : JValue) : List JValue → Except String (Option (JValue × JValue))
  | [] => .ok none
  | key :: ks =>
      exThen (pySubscript c key) fun cv =>
      exThen (pyGetD cv "continuation" (.str "")) fun tok =>
      if truthy tok then .ok (some (tok, key))
      else firstTokenInEntry c ks

/-- Lines 64–70, outer loop: every entry is visited (the `break` only
leaves the inner key loop), so a later entry that yields a token
overwrites the `(next_cont, cont_type)` pair of an earlier one. -/
def extractContGo : List JValue → Option (JValue × JValue) → Except String (Option (JValue × JValue))
  | [], acc => .ok acc
  | c :: rest, acc =>
      exThen (pyIter c) fun keys =>
      exThen (firstTokenInEntry c keys) fun hit =>
      extractContGo rest
        (match hit with
         | some p => some p
         | none => acc)

/-- `extract_messages_and_continuation` (lines 41–114): pick the actions
and continuations lists from the polling shape
(`continuationContents.liveChatContinuation`) when it is truthy, else
from the initial-page shape (`contents.liveChatRenderer`); extract the
continuation token and type key, then the messages. Returns
`(messages, next_cont, cont_type)`. -/
def extractE (data : JValue) : Except String (List Msg × Option JValue × Option JValue) :=
  exThen (pyGetD data "continuationContents" (.obj [])) fun cc =>
  exThen (pyGetD cc "liveChatContinuation" (.obj [])) fun lcc =>
  exThen
    (if truthy lcc then
      exThen (pyGetD lcc "actions" (.arr [])) fun a =>
      exThen (pyGetD lcc "continuations" (.arr [])) fun c =>
      .ok (a, c)
    else
      exThen (pyGetD data "contents" (.obj [])) fun contents =>
      exThen (pyGetD contents "liveChatRenderer" (.obj [])) fun lcr =>
      exThen (pyGetD lcr "actions" (.arr [])) fun a =>
      exThen (pyGetD lcr "continuations" (.arr [])) fun c =>
      .ok (a, c)) fun ac =>
  exThen (pyIter ac.2) fun contEntries =>
  exThen (extractContGo contEntries none) fun contRes =>
  exThen (pyIter ac.1) fun actions =>
  exThen (extractActionsGo actions) fun msgs =>
  .ok (msgs, contRes.map Prod.fst, contRes.map Prod.snd)

/-!
Ingestion Session — `main` of `src/yt_chat_scraper.py` (lines 136–221).
-/

/-- Session-scope dedup key (lines 143 and 191):
`(msg['timestamp'], msg['author']['name'])` on the dict the scraper just
built, i.e. the raw (un-rounded) timestamp and the author value; adding
the key to the `seen_timestamps` set raises when the author value is
unhashable. -/
def sessionKeyE (m : Msg) : Except String SKey :=
  exThen (toHashableE m.author) fun h => .ok (m.timestamp, h)

/-- State of one ingestion session: the current continuation token
(`None` is terminal), the `seen_timestamps` set (modelled as a list of
keys, membership being all the code uses), the records written to the
output file so far, and the page counter. -/
structure SessState where
  continuation : Option JValue
  seen : List SKey
  output : List JValue
  page : ℕ

/-- Line 143: `set(... for m in messages)` — the session keys of the
initial messages (duplicates are harmless, only membership is used);
raises on an unhashable author. -/
def initialSeenGo : List Msg → Except String (List SKey)
  | [] => .ok []
  | m :: ms =>
      exThen (sessionKeyE m) fun k =>
      exThen (initialSeenGo ms) fun ks =>
      .ok (k :: ks)

/-- Lines 138–148 (INIT → FETCH_INITIAL): parse the initial document,
seed `seen_timestamps` with the keys of all initial messages, and write
every initial message to the output file as-is — the write loop of
lines 146–148 applies no dedup filter. -/
def initialFetch (data : JValue) : Except String SessState :=
  exThen (extractE data) fun r =>
  exThen (initialSeenGo r.1) fun seen =>
  .ok ⟨r.2.1, seen, r.1.map encodeMsg, 0⟩

/-- Line 151: `is_replay = cont_type and 'replay' in cont_type.lower()`
— `None` (and any falsy key) maps to live; a truthy non-string key
would raise `AttributeError` on `.lower()`. -/
def isReplayOfE : Option JValue → Except String Bool
  | none => .ok false
  | some jv =>
      if truthy jv then
        match jv with
        | .str s => .ok (strContains (lowStr s) "replay")
        | _ => .error "AttributeError: lower"
      else .ok false

/-- One network attempt of the poll loop, as the session observes it:
a request timeout, a non-200 status (lines 180–183), any transport or
`r.json()` failure caught by the generic handler (lines 216–221), or a
parsed JSON payload. -/
inductive PollInput where
  | timeout
  | badStatus (code : ℕ)
  | transportErr
  | payload (data : JValue)

/-- Lines 189–194: the per-page dedup loop. Threads the
`seen_timestamps` set and the `unique_new` list; the boolean is false
when the loop raised mid-way (unhashable author), in which case the
keys added before the raise remain in the set but nothing is written. -/
def dedupNewGo (seen : List SKey) (novel : List Msg) : List Msg → List SKey × List Msg × Bool
  | [] => (seen, novel, true)
  | m :: ms =>
      match sessionKeyE m with
      | .error _ => (seen, novel, false)
      | .ok k =>
          if k ∈ seen then dedupNewGo seen novel ms
          else dedupNewGo (k :: seen) (novel ++ [m]) ms

/-- One iteration of the POLL loop (lines 165–221) given the outcome of
the network attempt. Returns the successor state and the slept delay in
seconds: 5 on every failure path (retry with the same token), 0.3/3 on
success per replay/live pacing, 0 when the new token is `None` (the
`break` on line 206 fires before any sleep). `page` is incremented at
the top of the loop (line 166), before the request. -/
def pollStep (isReplay : Bool) (st : SessState) (inp : PollInput) : SessState × ℚ :=
  match inp with
  | .timeout => (⟨st.continuation, st.seen, st.output, st.page + 1⟩, 5)
  | .badStatus _ => (⟨st.continuation, st.seen, st.output, st.page + 1⟩, 5)
  | .transportErr => (⟨st.continuation, st.seen, st.output, st.page + 1⟩, 5)
  | .payload data =>
      match extractE data with
      | .error _ => (⟨st.continuation, st.seen, st.output, st.page + 1⟩, 5)
      | .ok r =>
          match dedupNewGo st.seen [] r.1 with
          | (seen2, novel, noRaise) =>
              if noRaise then
                (⟨r.2.1, seen2, st.output ++ novel.map encodeMsg, st.page + 1⟩,
                 match r.2.1 with
                 | none => 0
                 | some _ => if isReplay then 3/10 else 3)
              else
                (⟨r.2.1, seen2, st.output, st.page + 1⟩, 5)

/-!
Capture Supervisor — `main` of `src/yt_chat_backup.py` (lines 118–220).
-/

/-- One capture method as the supervisor sees it after the start phase
(lines 146–174): its name, its output path (appended to `files` before
the start is attempted, so the path is recorded even when the start
fails), and whether the producer process was created. -/
structure MethodAttempt where
  name : String
  file : String
  started : Bool

/-- What the supervisor run ends in: `aborted code` models
`sys.exit(code)`, `merged files` models reaching the merge call of
lines 203–206 with the given input paths. -/
inductive SupOutcome where
  | aborted (code : ℕ)
  | merged (files : List String)

/-- Lines 176–178 and 203–206: when no producer started, the supervisor
prints an error and exits with status 1 (the merge never runs);
otherwise the monitor loop drains all producers and the merge runs on
every recorded output path, including the paths of producers that
failed to start (those paths simply do not exist at merge time). -/
def superviseOutcome (ms : List MethodAttempt) : SupOutcome :=
  if (ms.filter (fun a => a.started)).isEmpty then .aborted 1
  else .merged (ms.map (fun a => a.file))

/-!
Specification-side helpers used to state the corrected claims.
-/

/-- Key list of an association list is duplicate-free. -/
def nodupKeys : List (String × JValue) → Bool
  | [] => true
  | (k, _) :: rest => !(rest.any (fun kv => kv.1 == k)) && nodupKeys rest

/-- Well-formed continuation entry: a dict with duplicate-free keys
whose values are all dicts — the shape every real continuation entry
has, and the shape on which lines 64–70 cannot raise. -/
def wfEntry : JValue → Bool
  | .obj kvs =>
      nodupKeys kvs && kvs.all (fun kv =>
        match kv.2 with
        | .obj _ => true
        | _ => false)
  | _ => false

/-- First binding of a well-formed continuation entry whose value
carries a truthy `continuation` token, as `(token, key)`. -/
def entryHitGo : List (String × JValue) → Option (JValue × JValue)
  | [] => none
  | (k, v) :: rest =>
      match v with
      | .obj vkvs =>
          if truthy ((jlookup vkvs "continuation").getD (.str "")) then
            some ((jlookup vkvs "continuation").getD (.str ""), .str k)
          else entryHitGo rest
      | _ => none

/-- Hit of one continuation entry (see `entryHitGo`). -/
def entryHit : JValue → Option (JValue × JValue)
  | .obj kvs => entryHitGo kvs
  | _ => none

/-- Hit of the last continuation entry that has one (the observable
result of lines 64–70, whose `break` leaves only the inner loop): the
later entry overrides the earlier. -/
def lastHit : List JValue → Option (JValue × JValue)
  | [] => none
  | c :: rest =>
      match lastHit rest with
      | some p => some p
      | none => entryHit c

/-- The input lines of a merge run in encounter order: files in
file-iteration order (missing files contribute nothing), lines of each
file in file order. -/
def flatLines : List (Option (List (Option JValue))) → List (Option JValue)
  | [] => []
  | none :: fs => flatLines fs
  | some ls :: fs => ls ++ flatLines fs

/-!
Lemmas about the stable sort of line 109.
-/

/-- Insertion is a permutation action. -/
theorem insSorted_perm (m : JValue) (l : List JValue) :
    List.Perm (insSorted m l) (m :: l) := by
  induction l with
  | nil => simp [insSorted]
  | cons x xs ih =>
      by_cases h : sortTs m ≤ sortTs x
      · simp [insSorted, h]
      · simp only [insSorted, if_neg h]
        exact (ih.cons x).trans (List.Perm.swap m x xs)

/-- The sort permutes its input. -/
theorem sortMsgs_perm (l : List JValue) : List.Perm (sortMsgs l) l := by
  induction l with
  | nil => simp [sortMsgs]
  | cons m ms ih => exact (insSorted_perm m (sortMsgs ms)).trans (ih.cons m)

/-- Insertion preserves ascending order. -/
theorem insSorted_pairwise (m : JValue) (l : List JValue) :
    l.Pairwise (fun a b => sortTs a ≤ sortTs b) →
    (insSorted m l).Pairwise (fun a b => sortTs a ≤ sortTs b) := by
  induction l with
  | nil => intro _; simp [insSorted]
  | cons x xs ih =>
      intro h
      rcases List.pairwise_cons.mp h with ⟨hx, hxs⟩
      by_cases hle : sortTs m ≤ sortTs x
      · simp only [insSorted, if_pos hle]
        refine List.pairwise_cons.mpr ⟨?_, h⟩
        intro b hb
        rcases List.mem_cons.mp hb with hb1 | hb1
        · rw [hb1]; exact hle
        · exact le_trans hle (hx b hb1)
      · simp only [insSorted, if_neg hle]
        refine List.pairwise_cons.mpr ⟨?_, ih hxs⟩
        intro b hb
        have hmem := (insSorted_perm m xs).mem_iff.mp hb
        rcases List.mem_cons.mp hmem with hb1 | hb1
        · rw [hb1]; exact le_of_not_le hle
        · exact hx b hb1

/-- The sorted output is ascending in `sortTs`. -/
theorem sortMsgs_pairwise (l : List JValue) :
    (sortMsgs l).Pairwise (fun a b => sortTs a ≤ sortTs b) := by
  induction l with
  | nil => simp [sortMsgs]
  | cons m ms ih => exact insSorted_pairwise m (sortMsgs ms) ih

/-- Sorting an already-ascending list is the identity (stability: equal
keys keep their relative order, so a sorted list is a fixed point). -/
theorem sortMsgs_of_sorted (l : List JValue) :
    l.Pairwise (fun a b => sortTs a ≤ sortTs b) → sortMsgs l = l := by
  induction l with
  | nil => intro _; rfl
  | cons m ms ih =>
      intro h
      rcases List.pairwise_cons.mp h with ⟨hm, hms⟩
      have hrec : sortMsgs ms = ms := ih hms
      show insSorted m (sortMsgs ms) = m :: ms
      rw [hrec]
      cases ms with
      | nil => rfl
      | cons x xs =>
          have hx : sortTs m ≤ sortTs x := hm x (by simp)
          simp only [insSorted, if_pos hx]

/-!
Lemmas about the dedup fold of lines 90–107.
-/

/-- Processing a concatenation of line streams processes them in turn. -/
theorem mergeProcess_append (l1 l2 : List (Option JValue)) : ∀ seen acc,
    mergeProcess seen acc (l1 ++ l2) =
      mergeProcess (mergeProcess seen acc l1).1 (mergeProcess seen acc l1).2 l2 := by
  induction l1 with
  | nil => intro seen acc; rfl
  | cons l rest ih =>
      intro seen acc
      cases l with
      | none => simpa only [List.cons_append, mergeProcess] using ih seen acc
      | some m =>
          cases hk : recordKeyE m with
          | error e =>
              simpa only [List.cons_append, mergeProcess, hk] using ih seen acc
          | ok k =>
              by_cases hmem : k ∈ seen
              · simp only [List.cons_append, mergeProcess, hk, if_pos hmem]
                exact ih seen acc
              · simp only [List.cons_append, mergeProcess, hk, if_neg hmem]
                exact ih (k :: seen) (acc ++ [m])

/-- `flatLines` distributes over concatenation of file lists. -/
theorem flatLines_append (fs1 fs2 : List (Option (List (Option JValue)))) :
    flatLines (fs1 ++ fs2) = flatLines fs1 ++ flatLines fs2 := by
  induction fs1 with
  | nil => rfl
  | cons f rest ih =>
      cases f with
      | none => simpa only [List.cons_append, flatLines] using ih
      | some ls => simp [flatLines, ih, List.append_assoc]

/-- File boundaries are irrelevant: the two-level fold over files equals
the fold over the flattened line stream in encounter order. -/
theorem mergeFilesGo_eq (fs : List (Option (List (Option JValue)))) : ∀ seen acc,
    mergeFilesGo seen acc fs = mergeProcess seen acc (flatLines fs) := by
  induction fs with
  | nil => intro seen acc; rfl
  | cons f rest ih =>
      intro seen acc
      cases f with
      | none => simpa only [mergeFilesGo, flatLines] using ih seen acc
      | some ls =>
          simp only [mergeFilesGo, flatLines, mergeProcess_append]
          exact ih _ _

/-- The seen set only grows. -/
theorem mergeProcess_seen_mono (lines : List (Option JValue)) : ∀ seen acc k,
    k ∈ seen → k ∈ (mergeProcess seen acc lines).1 := by
  induction lines with
  | nil => intro seen acc k hk; exact hk
  | cons l rest ih =>
      intro seen acc k hk
      cases l with
      | none => exact ih seen acc k hk
      | some m =>
          cases hkey : recordKeyE m with
          | error e => simp only [mergeProcess, hkey]; exact ih seen acc k hk
          | ok k2 =>
              by_cases hmem : k2 ∈ seen
              · simp only [mergeProcess, hkey, if_pos hmem]; exact ih seen acc k hk
              · simp only [mergeProcess, hkey, if_neg hmem]
                exact ih (k2 :: seen) (acc ++ [m]) k (List.mem_cons_of_mem k2 hk)

/-- Main invariant of the fold: every accumulated record has a valid
key that is in the final seen set, and the accumulated records have
pairwise distinct keys. -/
theorem mergeProcess_inv (lines : List (Option JValue)) : ∀ seen acc,
    (∀ a ∈ acc, ∃ k, recordKeyE a = .ok k ∧ k ∈ seen) →
    acc.Pairwise (fun a b => recordKeyE a ≠ recordKeyE b) →
    (∀ a ∈ (mergeProcess seen acc lines).2,
        ∃ k, recordKeyE a = .ok k ∧ k ∈ (mergeProcess seen acc lines).1) ∧
      (mergeProcess seen acc lines).2.Pairwise (fun a b => recordKeyE a ≠ recordKeyE b) := by
  induction lines with
  | nil => intro seen acc h1 h2; exact ⟨h1, h2⟩
  | cons l rest ih =>
      intro seen acc h1 h2
      cases l with
      | none => exact ih seen acc h1 h2
      | some m =>
          cases hkey : recordKeyE m with
          | error e => simp only [mergeProcess, hkey]; exact ih seen acc h1 h2
          | ok k =>
              by_cases hmem : k ∈ seen
              · simp only [mergeProcess, hkey, if_pos hmem]; exact ih seen acc h1 h2
              · simp only [mergeProcess, hkey, if_neg hmem]
                refine ih (k :: seen) (acc ++ [m]) ?_ ?_
                · intro a ha
                  rcases List.mem_append.mp ha with ha1 | ha1
                  · rcases h1 a ha1 with ⟨k1, hk1, hk1s⟩
                    exact ⟨k1, hk1, List.mem_cons_of_mem k hk1s⟩
                  · rcases List.mem_singleton.mp ha1 with rfl
                    exact ⟨k, hkey, List.mem_cons_self k seen⟩
                · refine List.pairwise_append.mpr ⟨h2, List.pairwise_singleton _ m, ?_⟩
                  intro a ha b hb
                  rcases List.mem_singleton.mp hb with rfl
                  rcases h1 a ha with ⟨k1, hk1, hk1s⟩
                  rw [hk1, hkey]
                  intro hcontra
                  have : k1 = k := by injection hcontra
                  exact hmem (this ▸ hk1s)

/-- First-wins: a record in the fold output either came in through the
accumulator or is the first parseable line carrying its key (its key is
new w.r.t. the incoming seen set, and no earlier parseable line of the
stream has the same key). -/
theorem mergeProcess_first (lines : List (Option JValue)) : ∀ seen acc r,
    r ∈ (mergeProcess seen acc lines).2 →
    r ∈ acc ∨ ∃ k, recordKeyE r = .ok k ∧ k ∉ seen ∧
      ∃ pre suf, lines = pre ++ some r :: suf ∧
        ∀ r', some r' ∈ pre → recordKeyE r' ≠ .ok k := by
  induction lines with
  | nil => intro seen acc r hr; exact Or.inl hr
  | cons l rest ih =>
      intro seen acc r hr
      cases l with
      | none =>
          rcases ih seen acc r hr with h | ⟨k, hk, hks, pre, suf, heq, hpre⟩
          · exact Or.inl h
          · refine Or.inr ⟨k, hk, hks, none :: pre, suf, by rw [heq]; simp, ?_⟩
            intro r' hr'
            rcases List.mem_cons.mp hr' with h1 | h1
            · exact absurd h1 (by simp)
            · exact hpre r' h1
      | some m =>
          cases hkey : recordKeyE m with
          | error e =>
              simp only [mergeProcess, hkey] at hr
              rcases ih seen acc r hr with h | ⟨k, hk, hks, pre, suf, heq, hpre⟩
              · exact Or.inl h
              · refine Or.inr ⟨k, hk, hks, some m :: pre, suf, by rw [heq]; simp, ?_⟩
                intro r' hr'
                rcases List.mem_cons.mp hr' with h1 | h1
                · have : r' = m := by injection h1
                  rw [this, hkey]
                  intro hcontra
                  exact Except.noConfusion hcontra
                · exact hpre r' h1
          | ok km =>
              by_cases hmem : km ∈ seen
              · simp only [mergeProcess, hkey, if_pos hmem] at hr
                rcases ih seen acc r hr with h | ⟨k, hk, hks, pre, suf, heq, hpre⟩
                · exact Or.inl h
                · refine Or.inr ⟨k, hk, hks, some m :: pre, suf, by rw [heq]; simp, ?_⟩
                  intro r' hr'
                  rcases List.mem_cons.mp hr' with h1 | h1
                  · have : r' = m := by injection h1
                    rw [this, hkey]
                    intro hcontra
                    have : km = k := by injection hcontra
                    exact hks (this ▸ hmem)
                  · exact hpre r' h1
              · simp only [mergeProcess, hkey, if_neg hmem] at hr
                rcases ih (km :: seen) (acc ++ [m]) r hr with h | ⟨k, hk, hks, pre, suf, heq, hpre⟩
                · rcases List.mem_append.mp h with h1 | h1
                  · exact Or.inl h1
                  · rcases List.mem_singleton.mp h1 with rfl
                    exact Or.inr ⟨km, hkey, hmem, [], rest, rfl, by intro r' hr'; simp at hr'⟩
                · have hkneq : k ≠ km := fun hcontra => hks (hcontra ▸ List.mem_cons_self km seen)
                  refine Or.inr ⟨k, hk, fun hcontra => hks (List.mem_cons_of_mem km hcontra),
                    some m :: pre, suf, by rw [heq]; simp, ?_⟩
                  intro r' hr'
                  rcases List.mem_cons.mp hr' with h1 | h1
                  · have : r' = m := by injection h1
                    rw [this, hkey]
                    intro hcontra
                    have : km = k := by injection hcontra
                    exact hkneq this.symm
                  · exact hpre r' h1

/-- Every key of a parseable line of the stream ends up in the final
seen set. -/
theorem mergeProcess_seen_sup (lines : List (Option JValue)) : ∀ seen acc m k,
    some m ∈ lines → recordKeyE m = .ok k → k ∈ (mergeProcess seen acc lines).1 := by
  induction lines with
  | nil => intro seen acc m k hm; exact absurd hm (by simp)
  | cons l rest ih =>
      intro seen acc m k hm hk
      rcases List.mem_cons.mp hm with h1 | h1
      · cases l with
        | none => exact absurd h1 (by simp)
        | some m2 =>
            have hm2 : m2 = m := by injection h1.symm
            subst hm2
            cases hkey : recordKeyE m2 with
            | error e => rw [hkey] at hk; exact absurd hk (by intro h; exact Except.noConfusion h)
            | ok k2 =>
                have hk2 : k2 = k := by rw [hkey] at hk; injection hk
                subst hk2
                by_cases hmem : k2 ∈ seen
                · simp only [mergeProcess, hkey, if_pos hmem]
                  exact mergeProcess_seen_mono rest seen acc k2 hmem
                · simp only [mergeProcess, hkey, if_neg hmem]
                  exact mergeProcess_seen_mono rest (k2 :: seen) (acc ++ [m2]) k2
                    (List.mem_cons_self k2 seen)
      · cases l with
        | none => exact ih seen acc m k h1 hk
        | some m2 =>
            cases hkey : recordKeyE m2 with
            | error e => simp only [mergeProcess, hkey]; exact ih seen acc m k h1 hk
            | ok k2 =>
                by_cases hmem : k2 ∈ seen
                · simp only [mergeProcess, hkey, if_pos hmem]; exact ih seen acc m k h1 hk
                · simp only [mergeProcess, hkey, if_neg hmem]
                  exact ih (k2 :: seen) (acc ++ [m2]) m k h1 hk

/-- When every parseable key of the stream is already seen, the fold is
the identity on the state. -/
theorem mergeProcess_noop (lines : List (Option JValue)) : ∀ seen acc,
    (∀ m k, some m ∈ lines → recordKeyE m = .ok k → k ∈ seen) →
    mergeProcess seen acc lines = (seen, acc) := by
  induction lines with
  | nil => intro seen acc _; rfl
  | cons l rest ih =>
      intro seen acc h
      cases l with
      | none =>
          exact ih seen acc (fun m k hm hk => h m k (List.mem_cons_of_mem _ hm) hk)
      | some m =>
          cases hkey : recordKeyE m with
          | error e =>
              simp only [mergeProcess, hkey]
              exact ih seen acc (fun m2 k hm hk => h m2 k (List.mem_cons_of_mem _ hm) hk)
          | ok k =>
              have hmem : k ∈ seen := h m k (List.mem_cons_self _ _) hkey
              simp only [mergeProcess, hkey, if_pos hmem]
              exact ih seen acc (fun m2 k2 hm hk => h m2 k2 (List.mem_cons_of_mem _ hm) hk)

/-- When the incoming records all parse, have pairwise distinct keys and
keys disjoint from the seen set, the fold keeps all of them in order. -/
theorem mergeProcess_all_new (l : List JValue) : ∀ seen acc,
    l.Pairwise (fun a b => recordKeyE a ≠ recordKeyE b) →
    (∀ a ∈ l, ∃ k, recordKeyE a = .ok k ∧ k ∉ seen) →
    (mergeProcess seen acc (l.map some)).2 = acc ++ l := by
  induction l with
  | nil => intro seen acc _ _; simp [mergeProcess]
  | cons m rest ih =>
      intro seen acc hpw hnew
      rcases hnew m (List.mem_cons_self _ _) with ⟨k, hk, hks⟩
      rcases List.pairwise_cons.mp hpw with ⟨hm, hrest⟩
      simp only [List.map_cons, mergeProcess, hk, if_neg hks]
      have : (mergeProcess (k :: seen) (acc ++ [m]) (rest.map some)).2 = (acc ++ [m]) ++ rest := by
        refine ih (k :: seen) (acc ++ [m]) hrest ?_
        intro a ha
        rcases hnew a (List.mem_cons_of_mem _ ha) with ⟨k2, hk2, hk2s⟩
        refine ⟨k2, hk2, ?_⟩
        intro hcontra
        rcases List.mem_cons.mp hcontra with h1 | h1
        · subst h1
          exact hm a ha (by rw [hk, hk2])
        · exact hk2s h1
      rw [this, List.append_assoc]
      rfl

/-!
Concrete records for the example of the specification: source A emits
keys (12.34, "Alice"), (12.34, "Alice"), (15.0, "Bob"); source B emits
(12.3, "Alice"), (20.0, "Carol"). Distinct message bodies make the
first-seen record observable.
-/

/-- First Alice record of source A (timestamp 12.34). -/
def recA1 : JValue :=
  .obj [("author", .obj [("name", .str "Alice")]), ("timestamp", .num 12.34),
        ("message", .str "a1")]

/-- Exact-duplicate-key Alice record of source A. -/
def recA2 : JValue :=
  .obj [("author", .obj [("name", .str "Alice")]), ("timestamp", .num 12.34),
        ("message", .str "a2")]

/-- Bob record of source A (timestamp 15.0). -/
def recA3 : JValue :=
  .obj [("author", .obj [("name", .str "Bob")]), ("timestamp", .num 15.0),
        ("message", .str "b")]

/-- Alice record of source B (timestamp 12.3, same rounded key as A's). -/
def recB1 : JValue :=
  .obj [("author", .obj [("name", .str "Alice")]), ("timestamp", .num 12.3),
        ("message", .str "c")]

/-- Carol record of source B (timestamp 20.0). -/
def recB2 : JValue :=
  .obj [("author", .obj [("name", .str "Carol")]), ("timestamp", .num 20.0),
        ("message", .str "d")]

/-- The two example source files. -/
def exFiles : List (Option (List (Option JValue))) :=
  [some [some recA1, some recA2, some recA3], some [some recB1, some recB2]]

/-- Key of the first example record. -/
theorem keyRecA1 : recordKeyE recA1 = .ok (123/10, .str "Alice") := by
  simp [recordKeyE, recA1, exThen, pyGetD, jlookup, pyRound1E, toHashableE]
  norm_num [pyRound1, halfEven]

/-- Key of the duplicate example record. -/
theorem keyRecA2 : recordKeyE recA2 = .ok (123/10, .str "Alice") := by
  simp [recordKeyE, recA2, exThen, pyGetD, jlookup, pyRound1E, toHashableE]
  norm_num [pyRound1, halfEven]

/-- Key of the Bob record. -/
theorem keyRecA3 : recordKeyE recA3 = .ok (15, .str "Bob") := by
  simp [recordKeyE, recA3, exThen, pyGetD, jlookup, pyRound1E, toHashableE]
  norm_num [pyRound1, halfEven]

/-- Key of source B's Alice record: rounds to the same key as A's. -/
theorem keyRecB1 : recordKeyE recB1 = .ok (123/10, .str "Alice") := by
  simp [recordKeyE, recB1, exThen, pyGetD, jlookup, pyRound1E, toHashableE]
  norm_num [pyRound1, halfEven]

/-- Key of the Carol record. -/
theorem keyRecB2 : recordKeyE recB2 = .ok (20, .str "Carol") := by
  simp [recordKeyE, recB2, exThen, pyGetD, jlookup, pyRound1E, toHashableE]
  norm_num [pyRound1, halfEven]

/-- Sort key of the first example record. -/
theorem tsRecA1 : sortTs recA1 = 12.34 := by
  simp [sortTs, recA1, pyGetD, jlookup]

/-- Sort key of the Bob record. -/
theorem tsRecA3 : sortTs recA3 = 15 := by
  simp [sortTs, recA3, pyGetD, jlookup]
  norm_num

/-- Sort key of the Carol record. -/
theorem tsRecB2 : sortTs recB2 = 20 := by
  simp [sortTs, recB2, pyGetD, jlookup]
  norm_num

/-- Evaluation of the merge on the example of the specification:
exactly three records, source A's first Alice record wins, output in
timestamp order. -/
theorem mergeExampleEval : merge_chats exFiles = [recA1, recA3, recB2] := by
  norm_num [merge_chats, exFiles, mergeFilesGo, mergeProcess, keyRecA1, keyRecA2,
    keyRecA3, keyRecB1, keyRecB2, List.mem_cons, sortMsgs, insSorted,
    tsRecA1, tsRecA3, tsRecB2]

/-- The merged output has pairwise distinct identity keys. -/
theorem merge_chats_pairwise_keys (fs : List (Option (List (Option JValue)))) :
    (merge_chats fs).Pairwise (fun a b => recordKeyE a ≠ recordKeyE b) := by
  have hinv := mergeProcess_inv (flatLines fs) [] [] (by simp) (by simp)
  have hkept : (mergeFilesGo [] [] fs).2.Pairwise (fun a b => recordKeyE a ≠ recordKeyE b) := by
    rw [mergeFilesGo_eq]; exact hinv.2
  have hperm := sortMsgs_perm (mergeFilesGo [] [] fs).2
  exact (List.Perm.pairwise_iff (fun h hc => h hc.symm) hperm).mpr hkept

/-- Every merged record has a valid identity key. -/
theorem merge_chats_keys_ok (fs : List (Option (List (Option JValue)))) :
    ∀ a ∈ merge_chats fs, ∃ k, recordKeyE a = .ok k := by
  intro a ha
  have ha' : a ∈ (mergeFilesGo [] [] fs).2 := (sortMsgs_perm _).mem_iff.mp ha
  rw [mergeFilesGo_eq] at ha'
  have hinv := mergeProcess_inv (flatLines fs) [] [] (by simp) (by simp)
  rcases hinv.1 a ha' with ⟨k, hk, _⟩
  exact ⟨k, hk⟩

/-- First-wins at the `merge_chats` level: every merged record is the
first parseable line of the flattened input stream that carries its
identity key. -/
theorem merge_chats_first (fs : List (Option (List (Option JValue)))) (r : JValue) :
    r ∈ merge_chats fs →
    ∃ k pre suf, recordKeyE r = .ok k ∧ flatLines fs = pre ++ some r :: suf ∧
      ∀ r', some r' ∈ pre → recordKeyE r' ≠ .ok k := by
  intro hr
  have hr' : r ∈ (mergeFilesGo [] [] fs).2 := (sortMsgs_perm _).mem_iff.mp hr
  rw [mergeFilesGo_eq] at hr'
  rcases mergeProcess_first (flatLines fs) [] [] r hr' with h | ⟨k, hk, _, pre, suf, heq, hpre⟩
  · exact absurd h (by simp)
  · exact ⟨k, pre, suf, hk, heq, hpre⟩

/-- A `none` element in the middle of a line stream is ignored. -/
theorem mergeProcess_none_middle (l1 l2 : List (Option JValue)) (seen : List SKey)
    (acc : List JValue) :
    mergeProcess seen acc (l1 ++ none :: l2) = mergeProcess seen acc (l1 ++ l2) := by
  rw [mergeProcess_append, mergeProcess_append]
  rfl

/-!
Claim theorems for the Merge Engine.
-/

/-- C2: the merged output of `merge_chats` contains no two records with
equal identity keys (timestamp rounded to one decimal, author name);
when several input records share a key, the record kept is the first
one encountered in file-iteration order; the output is sorted
non-decreasing by timestamp; and on the specification's A/B example the
merge yields exactly the three records [A-Alice@12.34, Bob@15, Carol@20]
with source A's first Alice record winning. -/
theorem C2_merge_dedup_first_wins_sorted :
    (∀ fs, (merge_chats fs).Pairwise (fun a b => recordKeyE a ≠ recordKeyE b))
    ∧ (∀ fs, (merge_chats fs).Pairwise (fun a b => sortTs a ≤ sortTs b))
    ∧ (∀ fs r, r ∈ merge_chats fs →
        ∃ k pre suf, recordKeyE r = .ok k ∧ flatLines fs = pre ++ some r :: suf ∧
          ∀ r', some r' ∈ pre → recordKeyE r' ≠ .ok k)
    ∧ merge_chats exFiles = [recA1, recA3, recB2] :=
  ⟨merge_chats_pairwise_keys, fun _ => sortMsgs_pairwise _,
   merge_chats_first, mergeExampleEval⟩

/-- Witness for C2: the first-wins clause instantiated on the example —
source A's first Alice record is in the merged output, parses to the
key (12.3, "Alice"), and no parseable line before it in the flattened
stream carries that key. -/
theorem C2_merge_dedup_first_wins_sorted_witness :
    ∃ k pre suf, recordKeyE recA1 = .ok k ∧ flatLines exFiles = pre ++ some recA1 :: suf ∧
      ∀ r', some r' ∈ pre → recordKeyE r' ≠ .ok k :=
  C2_merge_dedup_first_wins_sorted.2.2.1 exFiles recA1
    (by rw [mergeExampleEval]; simp)

/-- C3: `merge_chats` is total and robust: merging zero files yields an
empty output; a file whose path does not exist contributes nothing; an
empty file contributes nothing; and a corrupt (unparseable) trailing
line of a file is dropped without affecting the records merged from the
well-formed lines before it. (The embedding is a total function: no
input makes it raise.) -/
theorem C3_merge_total_robust :
    merge_chats [] = []
    ∧ (∀ pre post, merge_chats (pre ++ none :: post) = merge_chats (pre ++ post))
    ∧ (∀ pre post, merge_chats (pre ++ some [] :: post) = merge_chats (pre ++ post))
    ∧ (∀ pre post lines, merge_chats (pre ++ some (lines ++ [none]) :: post)
        = merge_chats (pre ++ some lines :: post)) := by
  refine ⟨rfl, ?_, ?_, ?_⟩
  · intro pre post
    unfold merge_chats
    rw [mergeFilesGo_eq, mergeFilesGo_eq, flatLines_append, flatLines_append]
    rfl
  · intro pre post
    unfold merge_chats
    rw [mergeFilesGo_eq, mergeFilesGo_eq, flatLines_append, flatLines_append]
    rfl
  · intro pre post lines
    unfold merge_chats
    rw [mergeFilesGo_eq, mergeFilesGo_eq, flatLines_append, flatLines_append]
    have h1 : flatLines [some (lines ++ [none])] = lines ++ [none] := by
      simp [flatLines]
    have h2 : flatLines [some lines] = lines := by
      simp [flatLines]
    rw [show (some (lines ++ [none]) :: post) = [some (lines ++ [none])] ++ post from rfl,
        show (some lines :: post) = [some lines] ++ post from rfl,
        flatLines_append, flatLines_append, h1, h2]
    rw [show flatLines pre ++ ((lines ++ [none]) ++ flatLines post)
          = (flatLines pre ++ lines) ++ none :: flatLines post by simp,
        show flatLines pre ++ (lines ++ flatLines post)
          = (flatLines pre ++ lines) ++ flatLines post by simp]
    rw [mergeProcess_none_middle]

/-- C4: merging is idempotent and deterministic. The embedding of
`merge_chats` is a pure function of the file contents, so two runs on
equal inputs are definitionally equal; the substantive content proved
here is byte-identical re-merging: feeding the same file list twice
changes nothing, and merging the merged output reproduces it exactly. -/
theorem C4_merge_idempotent :
    (∀ fs, merge_chats (fs ++ fs) = merge_chats fs)
    ∧ (∀ fs, merge_chats [some ((merge_chats fs).map some)] = merge_chats fs) := by
  constructor
  · intro fs
    unfold merge_chats
    rw [mergeFilesGo_eq, mergeFilesGo_eq, flatLines_append, mergeProcess_append]
    rw [mergeProcess_noop (flatLines fs) _ _ ?_]
    intro m k hm hk
    exact mergeProcess_seen_sup (flatLines fs) [] [] m k hm hk
  · intro fs
    have hpw := merge_chats_pairwise_keys fs
    have hok := merge_chats_keys_ok fs
    have hnew : ∀ a ∈ merge_chats fs, ∃ k, recordKeyE a = .ok k ∧ k ∉ ([] : List SKey) := by
      intro a ha
      rcases hok a ha with ⟨k, hk⟩
      exact ⟨k, hk, by simp⟩
    have hkeep := mergeProcess_all_new (merge_chats fs) [] [] hpw hnew
    have hstep : merge_chats [some ((merge_chats fs).map some)]
        = sortMsgs (mergeProcess [] [] ((merge_chats fs).map some)).2 := by
      show sortMsgs (mergeFilesGo [] [] [some ((merge_chats fs).map some)]).2 = _
      rw [mergeFilesGo_eq,
        show flatLines [some ((merge_chats fs).map some)] = (merge_chats fs).map some by
          simp [flatLines]]
    rw [hstep, hkeep, List.nil_append]
    exact sortMsgs_of_sorted _ (sortMsgs_pairwise (mergeFilesGo [] [] fs).2)

/-- C10: a merge-input line that parses as a JSON object is kept even
with fields missing — a record with no `author`/`author.name` gets
author name `""` and a record with no `timestamp` gets timestamp 0, so
a timestamp-less record by author `name` (possibly empty, possibly
absent) gets identity key `(0, name)` and sort key 0; all such records
by the same author collapse to one under that key (pairwise key
distinctness of the output), and sort key 0 places them before every
record with a positive timestamp (the output being sorted
non-decreasing). -/
theorem C10_merge_missing_field_defaults :
    (∀ kvs, jlookup kvs "author" = none → jlookup kvs "timestamp" = none →
      recordKeyE (.obj kvs) = .ok (0, .str "") ∧ sortTs (.obj kvs) = 0)
    ∧ (∀ kvs akvs, jlookup kvs "author" = some (.obj akvs) →
        jlookup akvs "name" = none → jlookup kvs "timestamp" = none →
        recordKeyE (.obj kvs) = .ok (0, .str ""))
    ∧ (∀ kvs akvs n, jlookup kvs "author" = some (.obj akvs) →
        jlookup akvs "name" = some (.str n) → jlookup kvs "timestamp" = none →
        recordKeyE (.obj kvs) = .ok (0, .str n) ∧ sortTs (.obj kvs) = 0)
    ∧ (∀ fs, (merge_chats fs).Pairwise (fun a b => sortTs a ≤ sortTs b))
    ∧ (∀ fs, (merge_chats fs).Pairwise (fun a b => recordKeyE a ≠ recordKeyE b)) := by
  have hz : pyRound1 0 = 0 := by norm_num [pyRound1, halfEven]
  refine ⟨?_, ?_, ?_, fun _ => sortMsgs_pairwise _, merge_chats_pairwise_keys⟩
  · intro kvs h1 h2
    constructor
    · simp [recordKeyE, exThen, pyGetD, h1, h2, jlookup, pyRound1E, toHashableE, hz]
    · simp [sortTs, pyGetD, h2]
  · intro kvs akvs h1 h2 h3
    simp [recordKeyE, exThen, pyGetD, h1, h2, h3, pyRound1E, toHashableE, hz]
  · intro kvs akvs n h1 h2 h3
    constructor
    · simp [recordKeyE, exThen, pyGetD, h1, h2, h3, pyRound1E, toHashableE, hz]
    · simp [sortTs, pyGetD, h3]

/-- Witness for C10: a record carrying only a message field parses to
the default key `(0, "")` with sort key 0; a record whose author object
lacks a name gets the same treatment; and a timestamp-less record with
the present author name "Alice" gets key `(0, "Alice")` with sort
key 0. -/
theorem C10_merge_missing_field_defaults_witness :
    (recordKeyE (.obj [("message", .str "x")]) = .ok (0, .str "")
      ∧ sortTs (.obj [("message", .str "x")]) = 0)
    ∧ recordKeyE (.obj [("author", .obj [("superchat", .str "$5")])]) = .ok (0, .str "")
    ∧ (recordKeyE (.obj [("author", .obj [("name", .str "Alice")]), ("message", .str "x")])
        = .ok (0, .str "Alice")
      ∧ sortTs (.obj [("author", .obj [("name", .str "Alice")]), ("message", .str "x")]) = 0) :=
  ⟨C10_merge_missing_field_defaults.1 [("message", .str "x")] rfl rfl,
   C10_merge_missing_field_defaults.2.1 [("author", .obj [("superchat", .str "$5")])]
     [("superchat", .str "$5")] rfl rfl rfl,
   C10_merge_missing_field_defaults.2.2.1
     [("author", .obj [("name", .str "Alice")]), ("message", .str "x")]
     [("name", .str "Alice")] "Alice" rfl rfl rfl⟩

/-!
Lemmas for the continuation extraction (lines 63–70 of the scraper).
-/

/-- Sequencing is associative. -/
theorem exThen_assoc {α β γ : Type} (x : Except String α) (g : α → Except String β)
    (f : β → Except String γ) :
    exThen (exThen x g) f = exThen x (fun v => exThen (g v) f) := by
  cases x <;> rfl

/-- With duplicate-free keys, looking a binding's key up returns that
binding's value. -/
theorem jlookup_of_nodup (kvs : List (String × JValue)) :
    nodupKeys kvs = true → ∀ kv ∈ kvs, jlookup kvs kv.1 = some kv.2 := by
  induction kvs with
  | nil => intro _ kv hkv; exact absurd hkv (by simp)
  | cons p rest ih =>
      intro hnd kv hkv
      obtain ⟨k, v⟩ := p
      simp only [nodupKeys, Bool.and_eq_true, Bool.not_eq_true'] at hnd
      rcases List.mem_cons.mp hkv with h1 | h1
      · subst h1
        simp [jlookup]
      · have hne : (kv.1 == k) = false := by
          have hall := List.any_eq_false.mp hnd.1
          exact Bool.eq_false_iff.mpr (hall kv h1)
        have hne2 : (k == kv.1) = false := by
          rcases Bool.eq_false_iff.mp hne with _
          refine Bool.eq_false_iff.mpr ?_
          intro hcontra
          have : k = kv.1 := by simpa using hcontra
          rw [this] at hne
          simp at hne
        simp only [jlookup, hne2, Bool.false_eq_true, if_false]
        exact ih hnd.2 kv h1

/-- Scanning the keys of a well-formed entry evaluates to the
first-qualifying-key hit. -/
theorem firstTokenInEntry_eval (kvs : List (String × JValue)) :
    ∀ todo : List (String × JValue),
    (∀ kv ∈ todo, jlookup kvs kv.1 = some kv.2 ∧ ∃ vk, kv.2 = .obj vk) →
    firstTokenInEntry (.obj kvs) (todo.map (fun kv => .str kv.1)) = .ok (entryHitGo todo) := by
  intro todo
  induction todo with
  | nil => intro _; rfl
  | cons kv rest ih =>
      intro h
      obtain ⟨hlk, vk, hvk⟩ := h kv (List.mem_cons_self kv rest)
      obtain ⟨k, v⟩ := kv
      simp only at hvk
      subst hvk
      simp only at hlk
      simp only [List.map_cons, firstTokenInEntry, pySubscript, hlk, exThen, pyGetD,
        entryHitGo]
      by_cases ht : truthy ((jlookup vk "continuation").getD (.str ""))
      · simp [ht]
      · simp only [ht, Bool.false_eq_true, if_false]
        exact ih (fun kv2 hkv2 => h kv2 (List.mem_cons_of_mem _ hkv2))

/-- Iterating one well-formed continuation entry and scanning its keys
yields exactly its `entryHit`. -/
theorem entry_eval (c : JValue) (hc : wfEntry c = true) :
    exThen (pyIter c) (fun keys => firstTokenInEntry c keys) = .ok (entryHit c) := by
  cases c with
  | obj kvs =>
      simp only [wfEntry, Bool.and_eq_true, List.all_eq_true] at hc
      simp only [pyIter, exThen, entryHit]
      refine firstTokenInEntry_eval kvs kvs ?_
      intro kv hkv
      refine ⟨jlookup_of_nodup kvs hc.1 kv hkv, ?_⟩
      have := hc.2 kv hkv
      cases hv : kv.2 with
      | obj vk => exact ⟨vk, rfl⟩
      | null => rw [hv] at this; simp at this
      | bool b => rw [hv] at this; simp at this
      | num q => rw [hv] at this; simp at this
      | str s => rw [hv] at this; simp at this
      | arr xs => rw [hv] at this; simp at this
  | null => simp [wfEntry] at hc
  | bool b => simp [wfEntry] at hc
  | num q => simp [wfEntry] at hc
  | str s => simp [wfEntry] at hc
  | arr xs => simp [wfEntry] at hc

/-- On a list of well-formed continuation entries, the outer loop of
lines 64–70 computes the hit of the last entry that has one, the
accumulator standing for the `(next_cont, cont_type)` pair already
assigned. -/
theorem extractContGo_lastHit (cs : List JValue) : ∀ acc,
    (∀ c ∈ cs, wfEntry c = true) →
    extractContGo cs acc = .ok
      (match lastHit cs with
       | some p => some p
       | none => acc) := by
  induction cs with
  | nil => intro acc _; rfl
  | cons c rest ih =>
      intro acc h
      have heval := entry_eval c (h c (List.mem_cons_self c rest))
      show exThen (pyIter c) (fun keys => exThen (firstTokenInEntry c keys) fun hit =>
        extractContGo rest
          (match hit with
           | some p => some p
           | none => acc)) = _
      rw [show (fun keys => exThen (firstTokenInEntry c keys) fun hit =>
            extractContGo rest
              (match hit with
               | some p => some p
               | none => acc))
          = (fun keys => exThen (firstTokenInEntry c keys) (fun hit =>
            extractContGo rest
              (match hit with
               | some p => some p
               | none => acc))) from rfl,
        ← exThen_assoc, heval]
      show extractContGo rest
        (match entryHit c with
         | some p => some p
         | none => acc) = _
      rw [ih _ (fun c2 hc2 => h c2 (List.mem_cons_of_mem _ hc2))]
      cases hl : lastHit rest <;> cases he : entryHit c <;>
        simp [lastHit, hl, he]

/-- Initial-page-shaped document with the given actions and
continuations lists (the `contents.liveChatRenderer` topology). -/
def initialShapeDoc (actions continuations : List JValue) : JValue :=
  .obj [("contents", .obj [("liveChatRenderer", .obj
    [("actions", .arr actions), ("continuations", .arr continuations)])])]

/-- Document whose continuation list has two qualifying entries: the
first is a replay-typed entry carrying "tokFIRST", the second a
live-typed entry carrying "tokSECOND". -/
def exDoc1 : JValue :=
  initialShapeDoc []
    [.obj [("liveChatReplayContinuationData", .obj [("continuation", .str "tokFIRST")])],
     .obj [("invalidationContinuationData", .obj [("continuation", .str "tokSECOND")])]]

/-- Counterexample to C1: on a document whose continuation list has two
entries that both yield non-empty tokens, the parser returns the token
and type key of the SECOND (last) entry, not the first — the first
entry's key even maps to replay mode while the returned one maps to
live, so both the token and the mode contradict the claim's
"first entry" rule. -/
theorem C1_counterexample :
    extractE exDoc1 = .ok ([], some (.str "tokSECOND"), some (.str "invalidationContinuationData"))
    ∧ isReplayOfE (some (.str "invalidationContinuationData")) = .ok false
    ∧ isReplayOfE (some (.str "liveChatReplayContinuationData")) = .ok true
    ∧ truthy (.str "tokFIRST") = true := by
  refine ⟨rfl, rfl, rfl, rfl⟩

/-- C1 amended: the Response Parser returns the continuation token and
type key of the LAST continuation-list entry that yields a non-empty
token (within one entry, the first key whose value carries a non-empty
token, because the `break` leaves the inner key loop); when no entry
yields a token, `next_cont` stays null. The type key decides the mode
downstream: a key whose lower-cased form contains "replay" maps to
replay, any other (or absent) key to live. -/
theorem C1_amended_last_entry_wins :
    (∀ entries, (∀ c ∈ entries, wfEntry c = true) →
      extractContGo entries none = .ok (lastHit entries))
    ∧ (∀ actions entries, (∀ c ∈ entries, wfEntry c = true) →
        extractActionsGo actions = .ok [] →
        extractE (initialShapeDoc actions entries)
          = .ok ([], (lastHit entries).map Prod.fst, (lastHit entries).map Prod.snd))
    ∧ (∀ s, isReplayOfE (some (.str s)) = .ok (strContains (lowStr s) "replay"))
    ∧ isReplayOfE none = .ok false := by
  have hgo : ∀ entries, (∀ c ∈ entries, wfEntry c = true) →
      extractContGo entries none = .ok (lastHit entries) := by
    intro entries h
    rw [extractContGo_lastHit entries none h]
    cases lastHit entries <;> rfl
  refine ⟨hgo, ?_, ?_, rfl⟩
  · intro actions entries h hact
    show exThen (extractContGo entries none) (fun contRes =>
      exThen (extractActionsGo actions) fun msgs =>
        .ok (msgs, contRes.map Prod.fst, contRes.map Prod.snd)) = _
    rw [hgo entries h]
    show exThen (extractActionsGo actions) (fun msgs =>
      .ok (msgs, (lastHit entries).map Prod.fst, (lastHit entries).map Prod.snd)) = _
    rw [hact]
    rfl
  · intro s
    by_cases hs : s = ""
    · subst hs; rfl
    · simp [isReplayOfE, truthy, hs]

/-- Witness for C1 amended: on the two-entry document the general rule
instantiates to the second entry's token and key, and the mode mapping
evaluates on both keys. -/
theorem C1_amended_last_entry_wins_witness :
    extractE exDoc1 = .ok ([],
      (lastHit
        [.obj [("liveChatReplayContinuationData", .obj [("continuation", .str "tokFIRST")])],
         .obj [("invalidationContinuationData", .obj [("continuation", .str "tokSECOND")])]]).map Prod.fst,
      (lastHit
        [.obj [("liveChatReplayContinuationData", .obj [("continuation", .str "tokFIRST")])],
         .obj [("invalidationContinuationData", .obj [("continuation", .str "tokSECOND")])]]).map Prod.snd)
    ∧ isReplayOfE (some (.str "liveChatReplayContinuationData")) = .ok true :=
  ⟨C1_amended_last_entry_wins.2.1 []
      [.obj [("liveChatReplayContinuationData", .obj [("continuation", .str "tokFIRST")])],
       .obj [("invalidationContinuationData", .obj [("continuation", .str "tokSECOND")])]]
      (by intro c hc; rcases List.mem_cons.mp hc with h | h
          · rw [h]; rfl
          · rcases List.mem_singleton.mp h with rfl; rfl)
      rfl,
   by rw [C1_amended_last_entry_wins.2.2.1 "liveChatReplayContinuationData"]; rfl⟩

/-!
Claim theorems for the Capture Supervisor and the Ingestion Session.
-/

/-- Counterexample to C5: when every producer fails to start (lines
176–178 of `yt_chat_backup.py`), the supervisor exits with status 1 —
it never reaches the merge, so the claimed "still runs the merge with
zero producers" is false: the run outcome is `aborted 1`, which is
never a `merged` outcome. -/
theorem C5_counterexample :
    superviseOutcome
      [⟨"innertube", "f1", false⟩, ⟨"chat_downloader", "f2", false⟩, ⟨"yt-dlp", "f3", false⟩]
      = .aborted 1
    ∧ ∀ fsList, SupOutcome.aborted 1 ≠ SupOutcome.merged fsList := by
  refine ⟨rfl, ?_⟩
  intro fsList h
  exact SupOutcome.noConfusion h

/-- C5 amended: the supervisor proceeds to the merge once all producers
have stopped provided at least one producer started; the merge then
receives every recorded output path, including those of producers that
failed to start. When no producer started at all, the supervisor prints
an error and exits with status 1 without merging. -/
theorem C5_amended_merge_needs_one_started :
    ∀ ms, (ms.filter (fun a => a.started)).isEmpty = false →
      superviseOutcome ms = .merged (ms.map (fun a => a.file)) := by
  intro ms h
  simp [superviseOutcome, h]

/-- Witness for C5 amended: with one started and one failed producer
the merge runs on both output paths. -/
theorem C5_amended_merge_needs_one_started_witness :
    superviseOutcome [⟨"innertube", "f1", true⟩, ⟨"chat_downloader", "f2", false⟩]
      = .merged ["f1", "f2"] :=
  C5_amended_merge_needs_one_started
    [⟨"innertube", "f1", true⟩, ⟨"chat_downloader", "f2", false⟩] rfl

/-- The failure outcomes of one poll attempt the claim calls transient:
request timeout, non-200 status, transport (or body-decode) error. -/
def isTransientB : PollInput → Bool
  | .timeout => true
  | .badStatus _ => true
  | .transportErr => true
  | .payload _ => false

/-- C6: a transient failure during a poll cycle leaves the session
state untouched — same continuation token, same `seen_timestamps`,
same output file — and the loop sleeps the fixed 5-second delay before
re-polling with that same token. Since the loop guard is the truthiness
of the (unchanged) token, a transient failure alone never terminates
the session. -/
theorem C6_transient_failure_keeps_state :
    ∀ (isReplay : Bool) (st : SessState) (inp : PollInput), isTransientB inp = true →
      (pollStep isReplay st inp).1.continuation = st.continuation
      ∧ (pollStep isReplay st inp).1.seen = st.seen
      ∧ (pollStep isReplay st inp).1.output = st.output
      ∧ (pollStep isReplay st inp).2 = 5 := by
  intro isR st inp h
  cases inp with
  | timeout => exact ⟨rfl, rfl, rfl, rfl⟩
  | badStatus c => exact ⟨rfl, rfl, rfl, rfl⟩
  | transportErr => exact ⟨rfl, rfl, rfl, rfl⟩
  | payload d => simp [isTransientB] at h

/-- Witness for C6: a timeout against a live session with a pending
token keeps the token and sleeps 5 seconds. -/
theorem C6_transient_failure_keeps_state_witness :
    (pollStep false ⟨some (.str "tok"), [], [], 0⟩ .timeout).1.continuation = some (.str "tok")
    ∧ (pollStep false ⟨some (.str "tok"), [], [], 0⟩ .timeout).2 = 5 :=
  ⟨(C6_transient_failure_keeps_state false ⟨some (.str "tok"), [], [], 0⟩ .timeout rfl).1,
   (C6_transient_failure_keeps_state false ⟨some (.str "tok"), [], [], 0⟩ .timeout rfl).2.2.2⟩

/-- One chat action carrying a text message by "A" at timestampUsec
1000000 with body "hi". -/
def exAct7 : JValue :=
  .obj [("addChatItemAction", .obj [("item", .obj
    [("liveChatTextMessageRenderer", .obj
      [("authorName", .obj [("simpleText", .str "A")]),
       ("timestampUsec", .str "1000000"),
       ("message", .obj [("runs", .arr [.obj [("text", .str "hi")]])])])])])]

/-- Initial page whose actions list contains the same message twice:
two events with the same identity key on one page. -/
def exDoc7 : JValue := initialShapeDoc [exAct7, exAct7] []

/-- The record both copies of the action parse to. -/
def exRec7 : JValue :=
  encodeMsg ⟨.str "A", ((1000000 : ℤ) : ℚ) / 1000000, "hi", none, none⟩

/-- Counterexample to C7: on an initial page containing two events with
the same identity key, the initial fetch writes BOTH records to the
output file (lines 146–148 loop over `messages` unfiltered), so the
records written during the initial fetch are not duplicate-free under
the session identity key. -/
theorem C7_counterexample :
    (initialFetch exDoc7).map (fun st => st.output) = .ok [exRec7, exRec7] := rfl

/-- C7 amended: the events written during the initial fetch are exactly
the parsed events of the initial page, in order and with no dedup
filter applied; `seen_keys` is seeded with their keys (so only later
pages are deduplicated against them) and the session continues with the
parsed continuation token. -/
theorem C7_amended_initial_write_unfiltered :
    ∀ data st, initialFetch data = .ok st →
      ∃ msgs cont ctype, extractE data = .ok (msgs, cont, ctype)
        ∧ st.output = msgs.map encodeMsg
        ∧ st.continuation = cont
        ∧ st.page = 0 := by
  intro data st h
  unfold initialFetch at h
  cases hx : extractE data with
  | error e => rw [hx] at h; exact absurd h (by simp [exThen])
  | ok r =>
      rw [hx] at h
      simp only [exThen] at h
      cases hs : initialSeenGo r.1 with
      | error e => rw [hs] at h; exact absurd h (by simp)
      | ok seen =>
          rw [hs] at h
          have h2 : (⟨r.2.1, seen, r.1.map encodeMsg, 0⟩ : SessState) = st := by
            injection h
          exact ⟨r.1, r.2.1, r.2.2, by simp [hx], by rw [← h2], by rw [← h2], by rw [← h2]⟩

/-- Witness for C7 amended: instantiated on the duplicate-key page. -/
theorem C7_amended_initial_write_unfiltered_witness :
    ∃ msgs cont ctype, extractE exDoc7 = .ok (msgs, cont, ctype)
      ∧ (⟨none, [(((1000000 : ℤ) : ℚ) / 1000000, .str "A"),
            (((1000000 : ℤ) : ℚ) / 1000000, .str "A")],
          [exRec7, exRec7], 0⟩ : SessState).output = msgs.map encodeMsg
      ∧ (⟨none, [(((1000000 : ℤ) : ℚ) / 1000000, .str "A"),
            (((1000000 : ℤ) : ℚ) / 1000000, .str "A")],
          [exRec7, exRec7], 0⟩ : SessState).continuation = cont
      ∧ (⟨none, [(((1000000 : ℤ) : ℚ) / 1000000, .str "A"),
            (((1000000 : ℤ) : ℚ) / 1000000, .str "A")],
          [exRec7, exRec7], 0⟩ : SessState).page = 0 :=
  C7_amended_initial_write_unfiltered exDoc7 _ rfl

/-- Document whose single text-message renderer carries the non-numeric
`timestampUsec` value "abc". -/
def exDoc8 : JValue :=
  initialShapeDoc
    [.obj [("addChatItemAction", .obj [("item", .obj
      [("liveChatTextMessageRenderer", .obj [("timestampUsec", .str "abc")])])])]]
    []

/-- C8, the code bug: the Response Parser raises instead of returning
normally. On a document whose renderer has a non-numeric
`timestampUsec` string, `int(ts_usec)` on line 87 raises `ValueError`
with no enclosing handler inside `extract_messages_and_continuation`:
the parser aborts instead of treating the fragment as zero events. (In
the poll loop the generic handler then discards the WHOLE page; during
the initial fetch the exception is fatal.) -/
theorem C8_parser_raises_on_bad_timestamp :
    extractE exDoc8 = .error "ValueError: int" := rfl

/-- Event with a timestamp of 12.34 seconds. -/
def exMsg9 : Msg := ⟨.str "A", 12.34, "x", none, none⟩

/-- Counterexample to C9: the session-scope key function and the
merge-scope key function differ — the session key keeps the raw
timestamp 12.34 while the merge key rounds it to 12.3, so on this event
the two keys are different values. -/
theorem C9_counterexample :
    sessionKeyE exMsg9 = .ok (12.34, .str "A")
    ∧ recordKeyE (encodeMsg exMsg9) = .ok (123/10, .str "A")
    ∧ (12.34 : ℚ) ≠ 123/10
    ∧ sessionKeyE exMsg9 ≠ recordKeyE (encodeMsg exMsg9) := by
  have h1 : sessionKeyE exMsg9 = .ok (12.34, .str "A") := rfl
  have h2 : recordKeyE (encodeMsg exMsg9) = .ok (123/10, .str "A") := by
    simp [recordKeyE, encodeMsg, exMsg9, exThen, pyGetD, jlookup, pyRound1E, toHashableE]
    norm_num [pyRound1, halfEven]
  have h3 : (12.34 : ℚ) ≠ 123/10 := by norm_num
  refine ⟨h1, h2, h3, ?_⟩
  rw [h1, h2]
  intro h
  have h4 : ((12.34 : ℚ), PyHashable.str "A") = ((123/10 : ℚ), PyHashable.str "A") := by
    injection h
  exact h3 (congrArg Prod.fst h4)

/-- C9 amended: both scopes agree on the author component, but the
session key carries the exact timestamp while the merge key carries the
1-decimal rounding of it; the two key functions coincide on an event
exactly when its timestamp is already at 1-decimal precision. -/
theorem C9_amended_keys_differ_by_rounding :
    ∀ (m : Msg) (h : PyHashable), toHashableE m.author = .ok h →
      sessionKeyE m = .ok (m.timestamp, h)
      ∧ recordKeyE (encodeMsg m) = .ok (pyRound1 m.timestamp, h)
      ∧ (sessionKeyE m = recordKeyE (encodeMsg m) ↔ pyRound1 m.timestamp = m.timestamp) := by
  intro m h hh
  have h1 : sessionKeyE m = .ok (m.timestamp, h) := by
    simp [sessionKeyE, exThen, hh]
  have h2 : recordKeyE (encodeMsg m) = .ok (pyRound1 m.timestamp, h) := by
    simp [recordKeyE, encodeMsg, exThen, pyGetD, jlookup, pyRound1E, hh]
  refine ⟨h1, h2, ?_⟩
  constructor
  · intro he
    rw [h1, h2] at he
    have hp : ((m.timestamp : ℚ), h) = (pyRound1 m.timestamp, h) := by injection he
    exact (congrArg Prod.fst hp).symm
  · intro he
    rw [h1, h2, he]

/-- Event with a 1-decimal timestamp, on which both keys agree. -/
def wMsg9 : Msg := ⟨.str "B", 1, "m", none, none⟩

/-- Witness for C9 amended: instantiated on a whole-second event. -/
theorem C9_amended_keys_differ_by_rounding_witness :
    sessionKeyE wMsg9 = .ok (wMsg9.timestamp, .str "B")
    ∧ recordKeyE (encodeMsg wMsg9) = .ok (pyRound1 wMsg9.timestamp, .str "B")
    ∧ (sessionKeyE wMsg9 = recordKeyE (encodeMsg wMsg9)
        ↔ pyRound1 wMsg9.timestamp = wMsg9.timestamp) :=
  C9_amended_keys_differ_by_rounding wMsg9 (.str "B") rfl
